import Mathlib

/-!
Shallow embedding of `src/fiber_lib/2fiber/fiber.cpp` (namespace `sylar`):
a stackful cooperative fiber primitive.  The C++ heap of `Fiber` objects is
modelled as an association list from pointer values (`Nat`) to `Fiber`
records; the thread-local registry (`t_fiber`, `t_thread_fiber`,
`t_scheduler_fiber`) and the global counters (`s_fiber_id`,
`s_fiber_count`) live in a `ThreadState` record.  Context switching
(`getcontext`/`makecontext`/`swapcontext`) is modelled by a small `Ctx`
type recording what the context was last set to; a `swapcontext(a, b)`
call writes `.saved` into `a` and transfers control into `b`, so the
operations return the pointer of the counterpart context they exchanged
with.  Fatal paths (`assert` failures and null-pointer dereferences in
`swapcontext` arguments) are modelled with `Except Err`.
-/

namespace SylarFiber

/-- `Fiber::State` from the header: `READY`, `RUNNING`, `TERM`. -/
inductive FiberState where
  | READY
  | RUNNING
  | TERM
deriving DecidableEq, Repr

/-- Model of a `ucontext_t`: what the context was last initialized to.
`fresh` after a bare `getcontext`; `entry sp size` after
`makecontext(&m_ctx, &Fiber::MainFunc, 0)` with stack pointer `sp` and
stack size `size`; `saved` after `swapcontext` stored the live context
into it. -/
inductive Ctx where
  | fresh
  | entry (sp : Option Nat) (size : Nat)
  | saved
deriving DecidableEq, Repr

/-- The `sylar::Fiber` object: its data members as declared in the class.
Closures (`std::function<void()>`) are modelled as opaque tokens `Nat`,
`m_cb = none` standing for an empty/cleared `std::function`.  The stack
pointer returned by `malloc` is an abstract address `Option Nat`
(`none` = `nullptr`). -/
structure Fiber where
  m_id : Nat
  m_state : FiberState
  m_ctx : Ctx
  m_stack : Option Nat
  m_stacksize : Nat
  m_cb : Option Nat
  m_runInScheduler : Bool
deriving DecidableEq, Repr

/-- Lookup of a fiber pointer in the modelled heap. -/
def lookupF (p : Nat) : List (Nat × Fiber) → Option Fiber
  | [] => none
  | (q, f) :: rest => if q = p then some f else lookupF p rest

/-- In-place update through a fiber pointer (the first binding wins, as
pointers are allocated fresh). -/
def updF (p : Nat) (f : Fiber) : List (Nat × Fiber) → List (Nat × Fiber)
  | [] => []
  | (q, g) :: rest => if q = p then (q, f) :: rest else (q, g) :: updF p f rest

/-- Per-thread and process-global mutable state of `fiber.cpp`:
the thread-local pointers `t_fiber` (current fiber), `t_thread_fiber`
(main fiber) and `t_scheduler_fiber`, and the atomics `s_fiber_id`
(next identity) and `s_fiber_count` (live-object count).  `next_ptr`
and `next_addr` are the allocators for fresh object pointers and fresh
`malloc` stack addresses. -/
structure ThreadState where
  heap : List (Nat × Fiber)
  next_ptr : Nat
  t_fiber : Option Nat
  t_thread_fiber : Option Nat
  t_scheduler_fiber : Option Nat
  s_fiber_id : Nat
  s_fiber_count : Nat
  next_addr : Nat
deriving DecidableEq, Repr

/-- A thread before any fiber code has run: all registry pointers null,
counters zero. -/
def initState : ThreadState :=
  { heap := [], next_ptr := 0, t_fiber := none, t_thread_fiber := none,
    t_scheduler_fiber := none, s_fiber_id := 0, s_fiber_count := 0,
    next_addr := 0 }

/-- Outcome of a fatal path: a failed `assert`, or a dereference of a
null/invalid pointer (the `t_scheduler_fiber->m_ctx` /
`t_thread_fiber->m_ctx` arguments of `swapcontext`). -/
inductive Err where
  | assertFail
  | nullDeref
deriving DecidableEq, Repr

/-- `Fiber::SetThis(Fiber *f)`: `t_fiber = f`. -/
def Fiber.SetThis (f : Option Nat) (s : ThreadState) : ThreadState :=
  { s with t_fiber := f }

/-- `Fiber::SetSchedulerFiber(Fiber* f)`: `t_scheduler_fiber = f`. -/
def Fiber.SetSchedulerFiber (f : Option Nat) (s : ThreadState) : ThreadState :=
  { s with t_scheduler_fiber := f }

/-- `Fiber::Fiber()` — the private default constructor building the main
(thread) fiber: `SetThis(this); m_state = RUNNING; getcontext(&m_ctx);
m_id = s_fiber_id++; s_fiber_count++`.  The source never initializes
`m_runInScheduler` in this constructor, so its value is an arbitrary
parameter `b`.  The thread fiber has no heap stack (`m_stack` stays
null). -/
def Fiber.ctorMain (b : Bool) (s : ThreadState) : ThreadState × Nat :=
  let p := s.next_ptr
  let f : Fiber :=
    { m_id := s.s_fiber_id, m_state := .RUNNING, m_ctx := .fresh,
      m_stack := none, m_stacksize := 0, m_cb := none,
      m_runInScheduler := b }
  ({ s with heap := (p, f) :: s.heap, next_ptr := p + 1,
            t_fiber := some p,
            s_fiber_id := s.s_fiber_id + 1,
            s_fiber_count := s.s_fiber_count + 1 }, p)

/-- `Fiber::GetThis()`: returns the current fiber; if `t_fiber` is null,
first constructs the main fiber and installs it as `t_thread_fiber` and
(default) `t_scheduler_fiber`. -/
def Fiber.GetThis (b : Bool) (s : ThreadState) : ThreadState × Nat :=
  match s.t_fiber with
  | some p => (s, p)
  | none =>
    let r := Fiber.ctorMain b s
    ({ r.1 with t_thread_fiber := some r.2, t_scheduler_fiber := some r.2 },
     r.2)

/-- `Fiber::Fiber(std::function<void()> cb, size_t stacksize, bool
run_in_scheduler)`: `m_state = READY; m_stacksize = stacksize ? stacksize
: 128000; m_stack = malloc(m_stacksize); getcontext; m_ctx.uc_stack =
{m_stack, m_stacksize}; makecontext(&m_ctx, &Fiber::MainFunc, 0);
m_id = s_fiber_id++; s_fiber_count++`.  It touches none of the
thread-local registry pointers. -/
def Fiber.ctor (cb : Nat) (stacksize : Nat) (run_in_scheduler : Bool)
    (s : ThreadState) : ThreadState × Nat :=
  let sz := if stacksize ≠ 0 then stacksize else 128000
  let addr := s.next_addr
  let p := s.next_ptr
  let f : Fiber :=
    { m_id := s.s_fiber_id, m_state := .READY,
      m_ctx := .entry (some addr) sz,
      m_stack := some addr, m_stacksize := sz, m_cb := some cb,
      m_runInScheduler := run_in_scheduler }
  ({ s with heap := (p, f) :: s.heap, next_ptr := p + 1,
            next_addr := addr + 1,
            s_fiber_id := s.s_fiber_id + 1,
            s_fiber_count := s.s_fiber_count + 1 }, p)

/-- `Fiber::reset(std::function<void()> cb)` on the fiber at pointer `p`:
`assert(m_stack != nullptr && m_state == TERM); m_state = READY;
m_cb = cb;` then reinitializes `m_ctx` at the trampoline with the same
stack buffer and size. -/
def Fiber.reset (p : Nat) (cb : Nat) (s : ThreadState) :
    Except Err ThreadState :=
  match lookupF p s.heap with
  | none => .error .nullDeref
  | some f =>
    if f.m_stack ≠ none ∧ f.m_state = .TERM then
      let f1 : Fiber :=
        { f with m_state := .READY, m_cb := some cb,
                 m_ctx := .entry f.m_stack f.m_stacksize }
      .ok { s with heap := updF p f1 s.heap }
    else .error .assertFail

/-- `Fiber::resume()` on the fiber at pointer `p`:
`assert(m_state == READY); m_state = RUNNING;` then, depending on
`m_runInScheduler`, `SetThis(this); swapcontext(&(t_scheduler_fiber->m_ctx),
&m_ctx)` or `SetThis(this); swapcontext(&(t_thread_fiber->m_ctx), &m_ctx)`.
`swapcontext` saves the counterpart's live context and enters this
fiber's; the call returns the counterpart whose context was saved. -/
def Fiber.resume (p : Nat) (s : ThreadState) :
    Except Err (ThreadState × Nat) :=
  match lookupF p s.heap with
  | none => .error .nullDeref
  | some f =>
    if f.m_state = .READY then
      let s1 := { s with heap := updF p ({ f with m_state := .RUNNING }) s.heap }
      if f.m_runInScheduler then
        let s2 := Fiber.SetThis (some p) s1
        match s2.t_scheduler_fiber with
        | none => .error .nullDeref
        | some q =>
          match lookupF q s2.heap with
          | none => .error .nullDeref
          | some g =>
            .ok ({ s2 with heap := updF q ({ g with m_ctx := .saved }) s2.heap }, q)
      else
        let s2 := Fiber.SetThis (some p) s1
        match s2.t_thread_fiber with
        | none => .error .nullDeref
        | some q =>
          match lookupF q s2.heap with
          | none => .error .nullDeref
          | some g =>
            .ok ({ s2 with heap := updF q ({ g with m_ctx := .saved }) s2.heap }, q)
    else .error .assertFail

/-- `Fiber::yield()` on the fiber at pointer `p`:
`assert(m_state == RUNNING || m_state == TERM); if (m_state != TERM)
m_state = READY;` then, depending on `m_runInScheduler`,
`SetThis(t_scheduler_fiber); swapcontext(&m_ctx, &(t_scheduler_fiber->m_ctx))`
or `SetThis(t_thread_fiber.get()); swapcontext(&m_ctx,
&(t_thread_fiber->m_ctx))`.  `swapcontext` saves this fiber's context and
enters the counterpart's; the call returns the counterpart entered. -/
def Fiber.yield (p : Nat) (s : ThreadState) :
    Except Err (ThreadState × Nat) :=
  match lookupF p s.heap with
  | none => .error .nullDeref
  | some f =>
    if f.m_state = .RUNNING ∨ f.m_state = .TERM then
      let f1 := if f.m_state ≠ .TERM then { f with m_state := .READY } else f
      let s1 := { s with heap := updF p f1 s.heap }
      if f.m_runInScheduler then
        let s2 := Fiber.SetThis s1.t_scheduler_fiber s1
        match s2.t_scheduler_fiber with
        | none => .error .nullDeref
        | some q =>
          match lookupF q s2.heap with
          | none => .error .nullDeref
          | some _ =>
            .ok ({ s2 with heap := updF p ({ f1 with m_ctx := .saved }) s2.heap }, q)
      else
        let s2 := Fiber.SetThis s1.t_thread_fiber s1
        match s2.t_thread_fiber with
        | none => .error .nullDeref
        | some q =>
          match lookupF q s2.heap with
          | none => .error .nullDeref
          | some _ =>
            .ok ({ s2 with heap := updF p ({ f1 with m_ctx := .saved }) s2.heap }, q)
    else .error .assertFail

/-- `Fiber::MainFunc()` up to the point the user closure starts running:
`std::shared_ptr<Fiber> curr = GetThis(); assert(curr != nullptr);` —
immediately before `curr->m_cb()` is invoked.  Returns the thread state
observed by the closure's first instruction and the pointer `curr`. -/
def Fiber.MainFuncAtClosureStart (b : Bool) (s : ThreadState) :
    ThreadState × Nat :=
  Fiber.GetThis b s

/-- `Fiber::MainFunc()` bookkeeping right after `curr->m_cb()` returns:
`curr->m_cb = nullptr; curr->m_state = TERM;` (with `curr` the fiber at
pointer `p`). -/
def Fiber.MainFuncCleanup (p : Nat) (s : ThreadState) : ThreadState :=
  match lookupF p s.heap with
  | none => s
  | some f =>
    { s with heap := updF p ({ f with m_cb := none, m_state := .TERM }) s.heap }

/-- Tail of `Fiber::MainFunc()`: after the cleanup, `curr.reset();
raw_ptr->yield();` — the final yield out of the terminated fiber. -/
def Fiber.MainFuncFinish (p : Nat) (s : ThreadState) :
    Except Err (ThreadState × Nat) :=
  Fiber.yield p (Fiber.MainFuncCleanup p s)

/-! ### Basic heap lemmas -/

theorem lookupF_updF_self {h : List (Nat × Fiber)} {p : Nat} {g f : Fiber}
    (hl : lookupF p h = some g) :
    lookupF p (updF p f h) = some f := by
  induction h with
  | nil => simp [lookupF] at hl
  | cons a rest ih =>
    obtain ⟨q, g0⟩ := a
    by_cases hq : q = p
    · subst hq
      simp [lookupF, updF]
    · simp only [lookupF, updF, if_neg hq] at hl ⊢
      exact ih hl

theorem lookupF_updF_ne {h : List (Nat × Fiber)} {p q : Nat} {f : Fiber}
    (hne : q ≠ p) :
    lookupF q (updF p f h) = lookupF q h := by
  induction h with
  | nil => simp [lookupF, updF]
  | cons a rest ih =>
    obtain ⟨k, g0⟩ := a
    by_cases hk : k = p
    · subst hk
      simp only [updF, if_pos rfl, lookupF]
      rw [if_neg (fun hkq => hne hkq.symm), if_neg (fun hkq => hne hkq.symm)]
    · simp only [updF, if_neg hk, lookupF]
      by_cases hkq : k = q
      · simp [hkq]
      · rw [if_neg hkq, if_neg hkq]
        exact ih

theorem lookupF_mem_keys {p : Nat} {h : List (Nat × Fiber)} {f : Fiber}
    (hl : lookupF p h = some f) : p ∈ h.map Prod.fst := by
  induction h with
  | nil => simp [lookupF] at hl
  | cons a rest ih =>
    obtain ⟨q, g⟩ := a
    by_cases hq : q = p
    · subst hq; simp
    · simp only [lookupF, if_neg hq] at hl
      simp [ih hl]

theorem updF_keys (p : Nat) (f : Fiber) (h : List (Nat × Fiber)) :
    (updF p f h).map Prod.fst = h.map Prod.fst := by
  induction h with
  | nil => rfl
  | cons a rest ih =>
    obtain ⟨q, g⟩ := a
    by_cases hq : q = p
    · subst hq; simp [updF]
    · simp [updF, if_neg hq, ih]

/-- Effect on lookups of the heap shape left by a `swapcontext` step:
fiber `p` was first overwritten with `f2`, then the counterpart `q0` had
its context marked saved. -/
theorem swapSave_spec {h : List (Nat × Fiber)} {p q0 : Nat} {f0 f2 g : Fiber}
    (hl : lookupF p h = some f0)
    (hg : lookupF q0 (updF p f2 h) = some g) :
    (lookupF p (updF q0 ({ g with m_ctx := Ctx.saved }) (updF p f2 h))).map
        Fiber.m_state = some f2.m_state ∧
    (lookupF p (updF q0 ({ g with m_ctx := Ctx.saved }) (updF p f2 h))).map
        Fiber.m_id = some f2.m_id ∧
    (lookupF p (updF q0 ({ g with m_ctx := Ctx.saved }) (updF p f2 h))).map
        Fiber.m_cb = some f2.m_cb ∧
    (∀ q, q ≠ p →
      (lookupF q (updF q0 ({ g with m_ctx := Ctx.saved }) (updF p f2 h))).map
          Fiber.m_state = (lookupF q h).map Fiber.m_state ∧
      (lookupF q (updF q0 ({ g with m_ctx := Ctx.saved }) (updF p f2 h))).map
          Fiber.m_id = (lookupF q h).map Fiber.m_id ∧
      (lookupF q (updF q0 ({ g with m_ctx := Ctx.saved }) (updF p f2 h))).map
          Fiber.m_cb = (lookupF q h).map Fiber.m_cb) := by
  by_cases hq0 : q0 = p
  · subst hq0
    have hg2 : lookupF q0 (updF q0 f2 h) = some f2 := lookupF_updF_self hl
    rw [hg2] at hg
    injection hg with hgf
    subst hgf
    rw [lookupF_updF_self hg2]
    refine ⟨rfl, rfl, rfl, ?_⟩
    intro q hq
    rw [lookupF_updF_ne hq, lookupF_updF_ne hq]
    exact ⟨rfl, rfl, rfl⟩
  · rw [lookupF_updF_ne (fun hpq => hq0 hpq.symm), lookupF_updF_self hl]
    refine ⟨rfl, rfl, rfl, ?_⟩
    intro q hq
    by_cases hqq : q = q0
    · subst hqq
      rw [lookupF_updF_self hg]
      rw [lookupF_updF_ne hq0] at hg
      rw [hg]
      exact ⟨rfl, rfl, rfl⟩
    · rw [lookupF_updF_ne hqq, lookupF_updF_ne hq]
      exact ⟨rfl, rfl, rfl⟩

/-- Complete characterization of a successful `Fiber::resume` on pointer
`p`: the fiber had to be READY; the current-fiber pointer now names `p`;
the registry's thread/scheduler pointers and the identity counter are
untouched; the counterpart whose context was saved is the scheduler
fiber or the thread fiber according to `m_runInScheduler`; the resumed
fiber is RUNNING afterwards; and no other fiber's state, identity or
closure changes. -/
theorem resume_ok_spec {p : Nat} {s s' : ThreadState} {t : Nat}
    (h : Fiber.resume p s = .ok (s', t)) :
    ∃ f, lookupF p s.heap = some f ∧ f.m_state = .READY ∧
      s'.t_fiber = some p ∧
      s'.t_thread_fiber = s.t_thread_fiber ∧
      s'.t_scheduler_fiber = s.t_scheduler_fiber ∧
      s'.s_fiber_id = s.s_fiber_id ∧
      s'.next_addr = s.next_addr ∧
      s'.next_ptr = s.next_ptr ∧
      s'.heap.map Prod.fst = s.heap.map Prod.fst ∧
      (f.m_runInScheduler = true → s.t_scheduler_fiber = some t) ∧
      (f.m_runInScheduler = false → s.t_thread_fiber = some t) ∧
      (lookupF p s'.heap).map Fiber.m_state = some .RUNNING ∧
      (lookupF p s'.heap).map Fiber.m_id = some f.m_id ∧
      (lookupF p s'.heap).map Fiber.m_cb = some f.m_cb ∧
      (∀ q, q ≠ p →
        (lookupF q s'.heap).map Fiber.m_state = (lookupF q s.heap).map Fiber.m_state ∧
        (lookupF q s'.heap).map Fiber.m_id = (lookupF q s.heap).map Fiber.m_id ∧
        (lookupF q s'.heap).map Fiber.m_cb = (lookupF q s.heap).map Fiber.m_cb) := by
  unfold Fiber.resume at h
  cases hl : lookupF p s.heap with
  | none => simp only [hl] at h; exact Except.noConfusion h
  | some f =>
    simp only [hl] at h
    by_cases hst : f.m_state = FiberState.READY
    · rw [if_pos hst] at h
      cases hrs : f.m_runInScheduler with
      | true =>
        simp only [hrs, Fiber.SetThis, if_true] at h
        split at h
        next hsched => exact Except.noConfusion h
        next q0 hsched =>
          split at h
          next hg => exact Except.noConfusion h
          next g hg =>
            injection h with h1
            injection h1 with hs ht
            subst hs
            subst ht
            obtain ⟨ha1, ha2, ha3, hb⟩ := swapSave_spec hl hg
            refine ⟨f, rfl, hst, rfl, rfl, rfl, rfl, rfl, rfl,
              by rw [updF_keys, updF_keys], fun _ => hsched, ?_,
              ha1, ha2, ha3, hb⟩
            intro hfalse
            rw [hrs] at hfalse
            exact absurd hfalse (by simp)
      | false =>
        simp only [hrs, Fiber.SetThis, if_false, Bool.false_eq_true] at h
        split at h
        next hthr => exact Except.noConfusion h
        next q0 hthr =>
          split at h
          next hg => exact Except.noConfusion h
          next g hg =>
            injection h with h1
            injection h1 with hs ht
            subst hs
            subst ht
            obtain ⟨ha1, ha2, ha3, hb⟩ := swapSave_spec hl hg
            refine ⟨f, rfl, hst, rfl, rfl, rfl, rfl, rfl, rfl,
              by rw [updF_keys, updF_keys], ?_, fun _ => hthr,
              ha1, ha2, ha3, hb⟩
            intro htrue
            rw [hrs] at htrue
            exact absurd htrue (by simp)
    · rw [if_neg hst] at h; exact Except.noConfusion h

/-- Complete characterization of a successful `Fiber::yield` on pointer
`p`: the fiber had to be RUNNING or TERM; a RUNNING fiber becomes READY
while a TERM fiber stays TERM; the context entered (and the new
current-fiber pointer) is the scheduler fiber if `m_runInScheduler`,
else the thread fiber — and no other fiber's state, identity or closure
changes.  `yield` never consults the previous current-fiber pointer. -/
theorem yield_ok_spec {p : Nat} {s s' : ThreadState} {t : Nat}
    (h : Fiber.yield p s = .ok (s', t)) :
    ∃ f, lookupF p s.heap = some f ∧
      (f.m_state = .RUNNING ∨ f.m_state = .TERM) ∧
      s'.t_thread_fiber = s.t_thread_fiber ∧
      s'.t_scheduler_fiber = s.t_scheduler_fiber ∧
      s'.s_fiber_id = s.s_fiber_id ∧
      s'.next_addr = s.next_addr ∧
      s'.next_ptr = s.next_ptr ∧
      s'.heap.map Prod.fst = s.heap.map Prod.fst ∧
      (f.m_runInScheduler = true →
        s.t_scheduler_fiber = some t ∧ s'.t_fiber = s.t_scheduler_fiber) ∧
      (f.m_runInScheduler = false →
        s.t_thread_fiber = some t ∧ s'.t_fiber = s.t_thread_fiber) ∧
      (lookupF p s'.heap).map Fiber.m_state =
        some (if f.m_state = .TERM then .TERM else .READY) ∧
      (lookupF p s'.heap).map Fiber.m_id = some f.m_id ∧
      (lookupF p s'.heap).map Fiber.m_cb = some f.m_cb ∧
      (∀ q, q ≠ p →
        (lookupF q s'.heap).map Fiber.m_state = (lookupF q s.heap).map Fiber.m_state ∧
        (lookupF q s'.heap).map Fiber.m_id = (lookupF q s.heap).map Fiber.m_id ∧
        (lookupF q s'.heap).map Fiber.m_cb = (lookupF q s.heap).map Fiber.m_cb) := by
  unfold Fiber.yield at h
  cases hl : lookupF p s.heap with
  | none => simp only [hl] at h; exact Except.noConfusion h
  | some f =>
    simp only [hl] at h
    by_cases hst : f.m_state = FiberState.RUNNING ∨ f.m_state = FiberState.TERM
    · rw [if_pos hst] at h
      set f1 : Fiber :=
        if f.m_state ≠ FiberState.TERM then { f with m_state := FiberState.READY } else f
        with hf1
      have hg : lookupF p (updF p f1 s.heap) = some f1 := lookupF_updF_self hl
      have hstate : f1.m_state
          = (if f.m_state = FiberState.TERM then FiberState.TERM else FiberState.READY) := by
        by_cases hterm : f.m_state = FiberState.TERM
        · simp [hf1, hterm]
        · simp [hf1, hterm]
      have hid : f1.m_id = f.m_id := by
        by_cases hterm : f.m_state = FiberState.TERM
        · simp [hf1, hterm]
        · simp [hf1, hterm]
      have hcb : f1.m_cb = f.m_cb := by
        by_cases hterm : f.m_state = FiberState.TERM
        · simp [hf1, hterm]
        · simp [hf1, hterm]
      cases hrs : f.m_runInScheduler with
      | true =>
        simp only [hrs, Fiber.SetThis, if_true] at h
        split at h
        next hsched => exact Except.noConfusion h
        next q0 hsched =>
          split at h
          next hq0 => exact Except.noConfusion h
          next g0 hq0 =>
            injection h with h1
            injection h1 with hs ht
            subst hs
            subst ht
            obtain ⟨ha1, ha2, ha3, hb⟩ := swapSave_spec hl hg
            refine ⟨f, rfl, hst, rfl, rfl, rfl, rfl, rfl,
              by rw [updF_keys, updF_keys],
              fun _ => ⟨hsched, rfl⟩, ?_, ?_, ?_, ?_, hb⟩
            · intro hfalse
              rw [hrs] at hfalse
              exact absurd hfalse (by simp)
            · rw [ha1, hstate]
            · rw [ha2, hid]
            · rw [ha3, hcb]
      | false =>
        simp only [hrs, Fiber.SetThis, if_false, Bool.false_eq_true] at h
        split at h
        next hthr => exact Except.noConfusion h
        next q0 hthr =>
          split at h
          next hq0 => exact Except.noConfusion h
          next g0 hq0 =>
            injection h with h1
            injection h1 with hs ht
            subst hs
            subst ht
            obtain ⟨ha1, ha2, ha3, hb⟩ := swapSave_spec hl hg
            refine ⟨f, rfl, hst, rfl, rfl, rfl, rfl, rfl,
              by rw [updF_keys, updF_keys], ?_,
              fun _ => ⟨hthr, rfl⟩, ?_, ?_, ?_, hb⟩
            · intro htrue
              rw [hrs] at htrue
              exact absurd htrue (by simp)
            · rw [ha1, hstate]
            · rw [ha2, hid]
            · rw [ha3, hcb]
    · rw [if_neg hst] at h; exact Except.noConfusion h

/-- `Fiber::resume` on a fiber whose state is not READY dies on
`assert(m_state == READY)`. -/
theorem resume_assertFail {p : Nat} {s : ThreadState} {f : Fiber}
    (hl : lookupF p s.heap = some f) (hst : f.m_state ≠ .READY) :
    Fiber.resume p s = .error .assertFail := by
  unfold Fiber.resume
  simp only [hl]
  rw [if_neg hst]

/-- `Fiber::yield` on a fiber whose state is neither RUNNING nor TERM
dies on `assert(m_state == RUNNING || m_state == TERM)`. -/
theorem yield_assertFail {p : Nat} {s : ThreadState} {f : Fiber}
    (hl : lookupF p s.heap = some f)
    (hst : ¬(f.m_state = .RUNNING ∨ f.m_state = .TERM)) :
    Fiber.yield p s = .error .assertFail := by
  unfold Fiber.yield
  simp only [hl]
  rw [if_neg hst]

/-- `Fiber::reset` dies on `assert(m_stack != nullptr && m_state == TERM)`
whenever the fiber is not a terminated fiber owning a real stack. -/
theorem reset_assertFail {p cb : Nat} {s : ThreadState} {f : Fiber}
    (hl : lookupF p s.heap = some f)
    (hpre : ¬(f.m_stack ≠ none ∧ f.m_state = .TERM)) :
    Fiber.reset p cb s = .error .assertFail := by
  unfold Fiber.reset
  simp only [hl]
  rw [if_neg hpre]

/-- Complete characterization of a successful `Fiber::reset`: the fiber
was TERM with a real stack; afterwards it is READY with the new closure
installed and the context re-pointed at the trampoline over the very
same stack buffer and size; nothing is allocated and no other fiber or
registry pointer changes. -/
theorem reset_ok_spec {p cb : Nat} {s : ThreadState} {s' : ThreadState}
    (h : Fiber.reset p cb s = .ok s') :
    ∃ f, lookupF p s.heap = some f ∧ f.m_stack ≠ none ∧ f.m_state = .TERM ∧
      lookupF p s'.heap = some ({ f with m_state := .READY,
                                          m_cb := some cb,
                                          m_ctx := .entry f.m_stack f.m_stacksize }) ∧
      s'.next_addr = s.next_addr ∧ s'.next_ptr = s.next_ptr ∧
      s'.t_fiber = s.t_fiber ∧ s'.t_thread_fiber = s.t_thread_fiber ∧
      s'.t_scheduler_fiber = s.t_scheduler_fiber ∧
      s'.s_fiber_id = s.s_fiber_id ∧
      (∀ q, q ≠ p → lookupF q s'.heap = lookupF q s.heap) := by
  unfold Fiber.reset at h
  cases hl : lookupF p s.heap with
  | none => simp only [hl] at h; exact Except.noConfusion h
  | some f =>
    simp only [hl] at h
    by_cases hpre : f.m_stack ≠ none ∧ f.m_state = FiberState.TERM
    · rw [if_pos hpre] at h
      injection h with hs
      subst hs
      exact ⟨f, rfl, hpre.1, hpre.2, lookupF_updF_self hl, rfl, rfl, rfl,
        rfl, rfl, rfl, fun q hq => lookupF_updF_ne hq⟩
    · rw [if_neg hpre] at h; exact Except.noConfusion h

/-- `Fiber::yield` never reads the current-fiber pointer `t_fiber`:
its entire behaviour is unchanged if `t_fiber` is replaced by anything.
In particular its precondition check consults only the target fiber's
own `m_state`, never whether that fiber is actually the one executing. -/
theorem yield_ignores_current (p : Nat) (s : ThreadState) (c : Option Nat) :
    Fiber.yield p { s with t_fiber := c } = Fiber.yield p s := rfl

/-- `Fiber::GetThis` on a thread whose registry already has a current
fiber returns it and changes nothing. -/
theorem GetThis_some_spec (b : Bool) {s : ThreadState} {p : Nat}
    (h : s.t_fiber = some p) : Fiber.GetThis b s = (s, p) := by
  unfold Fiber.GetThis
  rw [h]

/-- `Fiber::GetThis` on a thread with no current fiber constructs the
main fiber: it is RUNNING, carries the next identity, owns no stack,
and is installed as current, thread and scheduler fiber. -/
theorem GetThis_none_spec (b : Bool) {s : ThreadState}
    (h : s.t_fiber = none) :
    Fiber.GetThis b s =
      ({ s with
          heap := (s.next_ptr,
            { m_id := s.s_fiber_id, m_state := .RUNNING, m_ctx := .fresh,
              m_stack := none, m_stacksize := 0, m_cb := none,
              m_runInScheduler := b }) :: s.heap,
          next_ptr := s.next_ptr + 1,
          t_fiber := some s.next_ptr,
          t_thread_fiber := some s.next_ptr,
          t_scheduler_fiber := some s.next_ptr,
          s_fiber_id := s.s_fiber_id + 1,
          s_fiber_count := s.s_fiber_count + 1 }, s.next_ptr) := by
  unfold Fiber.GetThis Fiber.ctorMain
  rw [h]

/-- Unfolding of the worker-fiber constructor `Fiber::Fiber(cb,
stacksize, run_in_scheduler)`: the new fiber is READY with the next
identity, a freshly allocated stack of the requested (or default) size,
and the registry pointers are untouched. -/
theorem ctor_spec (cb sz : Nat) (rs : Bool) (s : ThreadState) :
    Fiber.ctor cb sz rs s =
      ({ s with
          heap := (s.next_ptr,
            { m_id := s.s_fiber_id, m_state := .READY,
              m_ctx := .entry (some s.next_addr) (if sz ≠ 0 then sz else 128000),
              m_stack := some s.next_addr,
              m_stacksize := if sz ≠ 0 then sz else 128000,
              m_cb := some cb, m_runInScheduler := rs }) :: s.heap,
          next_ptr := s.next_ptr + 1,
          next_addr := s.next_addr + 1,
          s_fiber_id := s.s_fiber_id + 1,
          s_fiber_count := s.s_fiber_count + 1 }, s.next_ptr) := rfl

/-- Looking up the head of a freshly consed heap binding. -/
theorem lookupF_cons_self (p : Nat) (f : Fiber) (h : List (Nat × Fiber)) :
    lookupF p ((p, f) :: h) = some f := by
  simp [lookupF]

/-- Looking past a freshly consed heap binding. -/
theorem lookupF_cons_ne {p q : Nat} (f : Fiber) (h : List (Nat × Fiber))
    (hne : p ≠ q) : lookupF q ((p, f) :: h) = lookupF q h := by
  simp [lookupF, hne]

/-! ### Operation traces

A run of the public interface on one thread, used to state global
properties of identity assignment. -/

/-- One call into the fiber interface. -/
inductive Op where
  | opGetThis (b : Bool)
  | opCtor (cb stacksize : Nat) (rs : Bool)
  | opReset (p cb : Nat)
  | opResume (p : Nat)
  | opYield (p : Nat)
  | opSetSched (q : Option Nat)
deriving DecidableEq, Repr

/-- Run one interface call; the second component is the identity the
call assigned, when it constructed a fiber (`GetThis` on a fresh thread,
or the worker constructor). -/
def stepOp (s : ThreadState) : Op → Except Err (ThreadState × Option Nat)
  | .opGetThis b =>
    match s.t_fiber with
    | some _ => .ok ((Fiber.GetThis b s).1, none)
    | none => .ok ((Fiber.GetThis b s).1, some s.s_fiber_id)
  | .opCtor cb sz rs => .ok ((Fiber.ctor cb sz rs s).1, some s.s_fiber_id)
  | .opReset p cb => (Fiber.reset p cb s).map (fun s1 => (s1, none))
  | .opResume p => (Fiber.resume p s).map (fun r => (r.1, none))
  | .opYield p => (Fiber.yield p s).map (fun r => (r.1, none))
  | .opSetSched q => .ok (Fiber.SetSchedulerFiber q s, none)

/-- The identities assigned along a run, in construction order; a fatal
error stops the thread. -/
def runIds (s : ThreadState) : List Op → List Nat
  | [] => []
  | op :: rest =>
    match stepOp s op with
    | .error _ => []
    | .ok (s1, none) => runIds s1 rest
    | .ok (s1, some i) => i :: runIds s1 rest

/-- All heap pointers are below the allocator's next pointer (true of
every state reachable from `initState`, as `malloc`/`new` never hand out
a live address twice). -/
def HeapWF (s : ThreadState) : Prop :=
  ∀ k ∈ s.heap.map Prod.fst, k < s.next_ptr

/-- Every step of the interface moves the identity counter monotonically,
assigns exactly the counter value when it constructs a fiber, and bumps
the counter by one in that case. -/
theorem stepOp_counter {s s1 : ThreadState} {op : Op} {c : Option Nat}
    (h : stepOp s op = .ok (s1, c)) :
    s.s_fiber_id ≤ s1.s_fiber_id ∧
    (∀ i, c = some i → i = s.s_fiber_id ∧ s1.s_fiber_id = s.s_fiber_id + 1) := by
  cases op with
  | opGetThis b =>
    simp only [stepOp] at h
    cases ht : s.t_fiber with
    | some p =>
      simp only [ht] at h
      rw [GetThis_some_spec b ht] at h
      injection h with h1
      injection h1 with hs hc
      subst hs
      exact ⟨le_refl _, fun i hi => by rw [← hc] at hi; exact Option.noConfusion hi⟩
    | none =>
      simp only [ht] at h
      rw [GetThis_none_spec b ht] at h
      injection h with h1
      injection h1 with hs hc
      subst hs
      refine ⟨Nat.le_succ _, fun i hi => ?_⟩
      rw [← hc] at hi
      injection hi with hi
      exact ⟨hi.symm, rfl⟩
  | opCtor cb sz rs =>
    simp only [stepOp] at h
    rw [ctor_spec] at h
    injection h with h1
    injection h1 with hs hc
    subst hs
    refine ⟨Nat.le_succ _, fun i hi => ?_⟩
    rw [← hc] at hi
    injection hi with hi
    exact ⟨hi.symm, rfl⟩
  | opReset p cb =>
    simp only [stepOp] at h
    cases hr : Fiber.reset p cb s with
    | error e => rw [hr] at h; exact Except.noConfusion h
    | ok s2 =>
      rw [hr] at h
      injection h with h1
      injection h1 with hs hc
      subst hs
      obtain ⟨f, -, -, -, -, -, -, -, -, -, hid, -⟩ := reset_ok_spec hr
      exact ⟨le_of_eq hid.symm, fun i hi => by rw [← hc] at hi; exact Option.noConfusion hi⟩
  | opResume p =>
    simp only [stepOp] at h
    cases hr : Fiber.resume p s with
    | error e => rw [hr] at h; exact Except.noConfusion h
    | ok r =>
      rw [hr] at h
      injection h with h1
      injection h1 with hs hc
      subst hs
      obtain ⟨f, -, -, -, -, -, hid, -⟩ := resume_ok_spec hr
      exact ⟨le_of_eq hid.symm, fun i hi => by rw [← hc] at hi; exact Option.noConfusion hi⟩
  | opYield p =>
    simp only [stepOp] at h
    cases hr : Fiber.yield p s with
    | error e => rw [hr] at h; exact Except.noConfusion h
    | ok r =>
      rw [hr] at h
      injection h with h1
      injection h1 with hs hc
      subst hs
      obtain ⟨f, -, -, -, -, hid, -⟩ := yield_ok_spec hr
      exact ⟨le_of_eq hid.symm, fun i hi => by rw [← hc] at hi; exact Option.noConfusion hi⟩
  | opSetSched q =>
    simp only [stepOp] at h
    injection h with h1
    injection h1 with hs hc
    subst hs
    exact ⟨le_refl _, fun i hi => by rw [← hc] at hi; exact Option.noConfusion hi⟩

/-- Every identity assigned along a run is at least the counter value at
the start of the run. -/
theorem runIds_lb : ∀ (ops : List Op) (s : ThreadState),
    ∀ i ∈ runIds s ops, s.s_fiber_id ≤ i := by
  intro ops
  induction ops with
  | nil => intro s i hi; simp [runIds] at hi
  | cons op rest ih =>
    intro s i hi
    unfold runIds at hi
    cases hstep : stepOp s op with
    | error e => rw [hstep] at hi; simp at hi
    | ok r =>
      obtain ⟨s1, c⟩ := r
      rw [hstep] at hi
      obtain ⟨hmono, hcreated⟩ := stepOp_counter hstep
      cases c with
      | none =>
        simp only at hi
        exact le_trans hmono (ih s1 i hi)
      | some j =>
        simp only at hi
        obtain ⟨hj, hbump⟩ := hcreated j rfl
        rcases List.mem_cons.mp hi with hij | hi2
        · subst hij; rw [hj]
        · have htail := ih s1 i hi2
          rw [hbump] at htail
          exact le_trans (Nat.le_succ _) htail

/-- The identities assigned along any run of the interface are strictly
increasing in construction order (hence pairwise distinct): they are
drawn from the single monotonically incremented counter `s_fiber_id`. -/
theorem runIds_strictly_increasing : ∀ (ops : List Op) (s : ThreadState),
    List.Pairwise (fun a b => a < b) (runIds s ops) := by
  intro ops
  induction ops with
  | nil => intro s; simp [runIds]
  | cons op rest ih =>
    intro s
    unfold runIds
    cases hstep : stepOp s op with
    | error e => simp
    | ok r =>
      obtain ⟨s1, c⟩ := r
      cases c with
      | none => simpa using ih s1
      | some j =>
        simp only
        refine List.Pairwise.cons ?_ (ih s1)
        intro i hi
        obtain ⟨hmono, hcreated⟩ := stepOp_counter hstep
        obtain ⟨hj, hbump⟩ := hcreated j rfl
        have hlb := runIds_lb rest s1 i hi
        omega

/-- A step of the interface preserves heap well-formedness: pointers
handed out are always fresh. -/
theorem stepOp_WF {s s1 : ThreadState} {op : Op} {c : Option Nat}
    (hwf : HeapWF s) (h : stepOp s op = .ok (s1, c)) : HeapWF s1 := by
  cases op with
  | opGetThis b =>
    simp only [stepOp] at h
    cases ht : s.t_fiber with
    | some p =>
      simp only [ht] at h
      rw [GetThis_some_spec b ht] at h
      injection h with h1
      injection h1 with hs hc
      subst hs
      exact hwf
    | none =>
      simp only [ht] at h
      rw [GetThis_none_spec b ht] at h
      injection h with h1
      injection h1 with hs hc
      subst hs
      intro k hk
      simp only [List.map_cons, List.mem_cons] at hk
      rcases hk with hk | hk
      · simp [hk]
      · exact lt_trans (hwf k hk) (Nat.lt_succ_self _)
  | opCtor cb sz rs =>
    simp only [stepOp] at h
    rw [ctor_spec] at h
    injection h with h1
    injection h1 with hs hc
    subst hs
    intro k hk
    simp only [List.map_cons, List.mem_cons] at hk
    rcases hk with hk | hk
    · simp [hk]
    · exact lt_trans (hwf k hk) (Nat.lt_succ_self _)
  | opReset p cb =>
    simp only [stepOp] at h
    cases hr : Fiber.reset p cb s with
    | error e => rw [hr] at h; exact Except.noConfusion h
    | ok s2 =>
      rw [hr] at h
      injection h with h1
      injection h1 with hs hc
      subst hs
      unfold Fiber.reset at hr
      cases hl : lookupF p s.heap with
      | none => simp only [hl] at hr; exact Except.noConfusion hr
      | some f =>
        simp only [hl] at hr
        by_cases hpre : f.m_stack ≠ none ∧ f.m_state = FiberState.TERM
        · rw [if_pos hpre] at hr
          injection hr with hr1
          subst hr1
          intro k hk
          rw [updF_keys] at hk
          exact hwf k hk
        · rw [if_neg hpre] at hr; exact Except.noConfusion hr
  | opResume p =>
    simp only [stepOp] at h
    cases hr : Fiber.resume p s with
    | error e => rw [hr] at h; exact Except.noConfusion h
    | ok r =>
      rw [hr] at h
      injection h with h1
      injection h1 with hs hc
      subst hs
      obtain ⟨f, -, -, -, -, -, -, -, hptr, hkeys, -⟩ := resume_ok_spec hr
      intro k hk
      rw [hkeys] at hk
      rw [hptr]
      exact hwf k hk
  | opYield p =>
    simp only [stepOp] at h
    cases hr : Fiber.yield p s with
    | error e => rw [hr] at h; exact Except.noConfusion h
    | ok r =>
      rw [hr] at h
      injection h with h1
      injection h1 with hs hc
      subst hs
      obtain ⟨f, -, -, -, -, -, -, hptr, hkeys, -⟩ := yield_ok_spec hr
      intro k hk
      rw [hkeys] at hk
      rw [hptr]
      exact hwf k hk
  | opSetSched q =>
    simp only [stepOp] at h
    injection h with h1
    injection h1 with hs hc
    subst hs
    exact hwf

/-- No step of the interface ever changes the identity of an existing
fiber (under heap well-formedness, i.e. allocated pointers are fresh). -/
theorem stepOp_id_preserve {s s1 : ThreadState} {op : Op} {c : Option Nat}
    (hwf : HeapWF s) (h : stepOp s op = .ok (s1, c))
    {p : Nat} {f : Fiber} (hl : lookupF p s.heap = some f) :
    (lookupF p s1.heap).map Fiber.m_id = some f.m_id := by
  have hfresh : s.next_ptr ≠ p :=
    fun he => absurd (hwf p (lookupF_mem_keys hl)) (by rw [he]; exact lt_irrefl p)
  cases op with
  | opGetThis b =>
    simp only [stepOp] at h
    cases ht : s.t_fiber with
    | some q =>
      simp only [ht] at h
      rw [GetThis_some_spec b ht] at h
      injection h with h1
      injection h1 with hs hc
      subst hs
      rw [hl]
      rfl
    | none =>
      simp only [ht] at h
      rw [GetThis_none_spec b ht] at h
      injection h with h1
      injection h1 with hs hc
      subst hs
      simp only
      rw [lookupF_cons_ne _ _ hfresh, hl]
      rfl
  | opCtor cb sz rs =>
    simp only [stepOp] at h
    rw [ctor_spec] at h
    injection h with h1
    injection h1 with hs hc
    subst hs
    simp only
    rw [lookupF_cons_ne _ _ hfresh, hl]
    rfl
  | opReset p0 cb =>
    simp only [stepOp] at h
    cases hr : Fiber.reset p0 cb s with
    | error e => rw [hr] at h; exact Except.noConfusion h
    | ok s2 =>
      rw [hr] at h
      injection h with h1
      injection h1 with hs hc
      subst hs
      obtain ⟨g, hg, -, -, hg2, -, -, -, -, -, -, hframe⟩ := reset_ok_spec hr
      by_cases hp : p = p0
      · subst hp
        rw [hg] at hl
        injection hl with hl1
        subst hl1
        rw [hg2]
        rfl
      · rw [hframe p hp, hl]
        rfl
  | opResume p0 =>
    simp only [stepOp] at h
    cases hr : Fiber.resume p0 s with
    | error e => rw [hr] at h; exact Except.noConfusion h
    | ok r =>
      rw [hr] at h
      injection h with h1
      injection h1 with hs hc
      subst hs
      obtain ⟨g, hg, -, -, -, -, -, -, -, -, -, -, -, hmapid, -, hframe⟩ :=
        resume_ok_spec hr
      by_cases hp : p = p0
      · subst hp
        rw [hg] at hl
        injection hl with hl1
        subst hl1
        exact hmapid
      · rw [(hframe p hp).2.1, hl]
        rfl
  | opYield p0 =>
    simp only [stepOp] at h
    cases hr : Fiber.yield p0 s with
    | error e => rw [hr] at h; exact Except.noConfusion h
    | ok r =>
      rw [hr] at h
      injection h with h1
      injection h1 with hs hc
      subst hs
      obtain ⟨g, hg, -, -, -, -, -, -, -, -, -, -, hmapid, -, hframe⟩ :=
        yield_ok_spec hr
      by_cases hp : p = p0
      · subst hp
        rw [hg] at hl
        injection hl with hl1
        subst hl1
        exact hmapid
      · rw [(hframe p hp).2.1, hl]
        rfl
  | opSetSched q =>
    simp only [stepOp] at h
    injection h with h1
    injection h1 with hs hc
    subst hs
    simp only [Fiber.SetSchedulerFiber]
    rw [hl]
    rfl

/-! ### A concrete reachable scenario

A fresh thread touches the registry (creating the thread fiber at
pointer 0), constructs worker fiber F1 (closure token 7, default stack,
`run_in_scheduler = false`) at pointer 1, and resumes it. -/

/-- State after the first `GetThis()` on a fresh thread. -/
def scenA : ThreadState := (Fiber.GetThis false initState).1

/-- ... after constructing worker fiber F1 at pointer 1. -/
def scenB : ThreadState := (Fiber.ctor 7 0 false scenA).1

/-- ... after `resume()` on F1: the state in which F1's closure runs. -/
def scenC : ThreadState :=
  match Fiber.resume 1 scenB with
  | .ok r => r.1
  | .error _ => initState

/-- ... after F1 calls `yield()` while RUNNING. -/
def scenD : ThreadState :=
  match Fiber.yield 1 scenC with
  | .ok r => r.1
  | .error _ => initState

/-- Alternative continuation of `scenC`: F1's closure returned, and the
trampoline performed its bookkeeping (`m_cb = nullptr; m_state = TERM`). -/
def scenE : ThreadState := Fiber.MainFuncCleanup 1 scenC

/-- ... after the trampoline's final `yield()` out of the TERM F1
(together with `scenE` this is `MainFuncFinish`). -/
def scenF : ThreadState :=
  match Fiber.yield 1 scenE with
  | .ok r => r.1
  | .error _ => initState

/-- The thread (main) fiber of the scenario, as built by `GetThis`. -/
def mainF0 : Fiber :=
  { m_id := 0, m_state := .RUNNING, m_ctx := .fresh, m_stack := none,
    m_stacksize := 0, m_cb := none, m_runInScheduler := false }

/-- The worker fiber F1 of the scenario, as built by the constructor. -/
def workF1 : Fiber :=
  { m_id := 1, m_state := .READY, m_ctx := .entry (some 0) 128000,
    m_stack := some 0, m_stacksize := 128000, m_cb := some 7,
    m_runInScheduler := false }

/-! ### Claims -/

/-- C1 (counterexample): in the reachable scenario where the thread
fiber (pointer 0) resumes worker fiber F1 (pointer 1), both fibers are
simultaneously in RUNNING state while F1 runs, and the resumer's state
is RUNNING, not READY — refuting both "at most one fiber is in RUNNING
state at any instant" and "A's state is READY for the whole time B
runs". -/
theorem c1_single_running_counterexample :
    Fiber.resume 1 scenB = .ok (scenC, 0) ∧
    scenC.t_fiber = some 1 ∧
    (lookupF 0 scenC.heap).map Fiber.m_state = some .RUNNING ∧
    (lookupF 1 scenC.heap).map Fiber.m_state = some .RUNNING ∧
    (0 : Nat) ≠ 1 :=
  ⟨rfl, rfl, rfl, rfl, by decide⟩

/-- C1 (amended): `resume()` records the resumed fiber as current and
leaves the state of every other fiber — in particular the resumer's —
untouched, so when A resumes B, A stays RUNNING (it becomes READY only
when it itself yields, which is what `yield()` does to a RUNNING
fiber); consequently the thread fiber and a resumed worker are RUNNING
simultaneously and the single-RUNNING-state invariant does not hold,
the per-thread uniqueness being that of the current-fiber pointer. -/
theorem c1_resume_keeps_resumer_running :
    (∀ (s s' : ThreadState) (p t q : Nat),
      Fiber.resume p s = .ok (s', t) → q ≠ p →
      (lookupF q s'.heap).map Fiber.m_state = (lookupF q s.heap).map Fiber.m_state) ∧
    (∀ (s s' : ThreadState) (p t : Nat),
      Fiber.resume p s = .ok (s', t) → s'.t_fiber = some p) ∧
    (∀ (s s' : ThreadState) (p t : Nat) (f : Fiber),
      lookupF p s.heap = some f → f.m_state = .RUNNING →
      Fiber.yield p s = .ok (s', t) →
      (lookupF p s'.heap).map Fiber.m_state = some .READY) ∧
    ((lookupF 0 scenC.heap).map Fiber.m_state = some .RUNNING ∧
     (lookupF 1 scenC.heap).map Fiber.m_state = some .RUNNING ∧
     scenC.t_fiber = some 1) := by
  refine ⟨?_, ?_, ?_, rfl, rfl, rfl⟩
  · intro s s' p t q h hq
    obtain ⟨f, -, -, -, -, -, -, -, -, -, -, -, -, -, -, hframe⟩ := resume_ok_spec h
    exact (hframe q hq).1
  · intro s s' p t h
    obtain ⟨f, -, -, hcur, -⟩ := resume_ok_spec h
    exact hcur
  · intro s s' p t f hl hrun h
    obtain ⟨g, hg, -, -, -, -, -, -, -, -, -, hstate, -⟩ := yield_ok_spec h
    rw [hl] at hg
    injection hg with hg1
    subst hg1
    rw [hstate, hrun]
    rfl

/-- C1 (witness): the amended theorem applied in the concrete scenario:
resuming F1 leaves the thread fiber's state untouched, records F1 as
current, and a later yield of the RUNNING F1 makes it READY. -/
theorem c1_resume_keeps_resumer_running_witness :
    (lookupF 0 scenC.heap).map Fiber.m_state =
      (lookupF 0 scenB.heap).map Fiber.m_state ∧
    scenC.t_fiber = some 1 ∧
    (lookupF 1 scenD.heap).map Fiber.m_state = some .READY :=
  ⟨c1_resume_keeps_resumer_running.1 scenB scenC 1 0 0 rfl (by decide),
   c1_resume_keeps_resumer_running.2.1 scenB scenC 1 0 rfl,
   c1_resume_keeps_resumer_running.2.2.1 scenC scenD 1 0
     ({ workF1 with m_state := .RUNNING }) rfl rfl rfl⟩

/-! Scenario for C2: a scheduler fiber distinct from the thread fiber is
installed, then a THREAD_MANAGED worker yields. -/

/-- C2 scenario: thread fiber at 0, then F_sched (run_in_scheduler =
true, closure 5) at pointer 1. -/
def c2sB : ThreadState := (Fiber.ctor 5 0 true scenA).1

/-- ... F_sched installed as the thread's scheduler fiber. -/
def c2sC : ThreadState := Fiber.SetSchedulerFiber (some 1) c2sB

/-- ... F1 (run_in_scheduler = false, closure 7) at pointer 2. -/
def c2sD : ThreadState := (Fiber.ctor 7 0 false c2sC).1

/-- ... after `resume()` on F1. -/
def c2sE : ThreadState :=
  match Fiber.resume 2 c2sD with
  | .ok r => r.1
  | .error _ => initState

/-- ... after F1 calls `yield()`. -/
def c2sF : ThreadState :=
  match Fiber.yield 2 c2sE with
  | .ok r => r.1
  | .error _ => initState

/-- C2: the handoff target of `yield()` is fixed by the fiber's
`m_runInScheduler` flag: a THREAD_MANAGED fiber always switches into the
thread fiber's context and records it as current — never the scheduler
fiber and never its literal resumer — and a SCHEDULER_MANAGED fiber
always switches into the scheduler fiber; in the concrete scenario with
a scheduler fiber (pointer 1) distinct from the thread fiber (pointer
0), F1's yield enters the thread fiber. -/
theorem c2_yield_target_by_run_mode :
    (∀ (s s' : ThreadState) (p t : Nat) (f : Fiber),
      lookupF p s.heap = some f → Fiber.yield p s = .ok (s', t) →
      (f.m_runInScheduler = false →
        s.t_thread_fiber = some t ∧ s'.t_fiber = s.t_thread_fiber) ∧
      (f.m_runInScheduler = true →
        s.t_scheduler_fiber = some t ∧ s'.t_fiber = s.t_scheduler_fiber)) ∧
    (c2sE.t_scheduler_fiber = some 1 ∧
     c2sE.t_thread_fiber = some 0 ∧
     (1 : Nat) ≠ 0 ∧
     Fiber.yield 2 c2sE = .ok (c2sF, 0) ∧
     c2sF.t_fiber = some 0) := by
  refine ⟨?_, rfl, rfl, by decide, rfl, rfl⟩
  intro s s' p t f hl h
  obtain ⟨g, hg, -, -, -, -, -, -, -, hrsT, hrsF, -⟩ := yield_ok_spec h
  rw [hl] at hg
  injection hg with hg1
  subst hg1
  exact ⟨hrsF, hrsT⟩

/-- C2 (witness): the general handoff theorem applied to the concrete
scenario yield. -/
theorem c2_yield_target_by_run_mode_witness :
    c2sE.t_thread_fiber = some 0 ∧ c2sF.t_fiber = c2sE.t_thread_fiber :=
  (c2_yield_target_by_run_mode.1 c2sE c2sF 2 0
    ({ m_id := 2, m_state := .RUNNING, m_ctx := .entry (some 1) 128000,
       m_stack := some 1, m_stacksize := 128000, m_cb := some 7,
       m_runInScheduler := false }) rfl rfl).1 rfl

/-- C3 (counterexample): at the instant F1's closure body starts
running (the trampoline has resolved the current fiber, immediately
before `curr->m_cb()`), the fiber's entry field still holds the closure
(token 7) — it is not cleared when execution begins, refuting the claim
that captured resources are released as soon as the closure body starts
running. -/
theorem c3_cleared_at_start_counterexample :
    Fiber.MainFuncAtClosureStart false scenC = (scenC, 1) ∧
    (lookupF 1 scenC.heap).map Fiber.m_cb = some (some 7) ∧
    some (7 : Nat) ≠ none :=
  ⟨rfl, rfl, by decide⟩

/-- C3 (amended): the stored entry closure is still held while the
closure body runs; `MainFunc` clears it (and marks the fiber TERM)
immediately after the closure returns, so captured resources are
released on completion, not when execution begins.  The state observed
at closure start is exactly the state `resume` produced — the entry
field untouched. -/
theorem c3_closure_cleared_on_completion :
    (∀ (s : ThreadState) (p : Nat) (f : Fiber), lookupF p s.heap = some f →
      lookupF p (Fiber.MainFuncCleanup p s).heap =
        some ({ f with m_cb := none, m_state := .TERM })) ∧
    (∀ (b : Bool) (s : ThreadState) (p : Nat), s.t_fiber = some p →
      Fiber.MainFuncAtClosureStart b s = (s, p)) ∧
    ((lookupF 1 scenC.heap).map Fiber.m_cb = some (some 7) ∧
     (lookupF 1 (Fiber.MainFuncCleanup 1 scenC).heap).map Fiber.m_cb =
       some none ∧
     (lookupF 1 (Fiber.MainFuncCleanup 1 scenC).heap).map Fiber.m_state =
       some .TERM) := by
  refine ⟨?_, ?_, rfl, rfl, rfl⟩
  · intro s p f hl
    unfold Fiber.MainFuncCleanup
    rw [hl]
    exact lookupF_updF_self hl
  · intro b s p h
    unfold Fiber.MainFuncAtClosureStart
    exact GetThis_some_spec b h

/-- C3 (witness): the clearing-on-completion theorem applied to F1 in
the concrete scenario. -/
theorem c3_closure_cleared_on_completion_witness :
    lookupF 1 (Fiber.MainFuncCleanup 1 scenC).heap =
      some ({ workF1 with m_state := .TERM, m_cb := none }) ∧
    Fiber.MainFuncAtClosureStart true scenC = (scenC, 1) :=
  ⟨c3_closure_cleared_on_completion.1 scenC 1
     ({ workF1 with m_state := .RUNNING }) rfl,
   c3_closure_cleared_on_completion.2.1 true scenC 1 rfl⟩

/-- C4: `resume()` on a READY fiber makes it RUNNING and records it as
the thread's current fiber before control enters the fiber (so
`GetThis()` observed from inside the closure returns exactly that
fiber, with the state unchanged); on a fiber in any other state the
`assert(m_state == READY)` fails — a fatal, unrecoverable path. -/
theorem c4_resume_contract :
    (∀ (s : ThreadState) (p : Nat) (f : Fiber),
      lookupF p s.heap = some f → f.m_state ≠ .READY →
      Fiber.resume p s = .error .assertFail) ∧
    (∀ (s s' : ThreadState) (p t : Nat),
      Fiber.resume p s = .ok (s', t) →
      (lookupF p s'.heap).map Fiber.m_state = some .RUNNING ∧
      s'.t_fiber = some p ∧
      ∀ b, Fiber.GetThis b s' = (s', p)) := by
  refine ⟨fun s p f hl hst => resume_assertFail hl hst, ?_⟩
  intro s s' p t h
  obtain ⟨f, -, -, hcur, -, -, -, -, -, -, -, -, hrun, -⟩ := resume_ok_spec h
  exact ⟨hrun, hcur, fun b => GetThis_some_spec b hcur⟩

/-- C4 (witness): resuming the RUNNING thread fiber is an assertion
failure, and the concrete scenario resume of READY F1 yields RUNNING
state, current pointer 1, and `GetThis` returning F1 from inside. -/
theorem c4_resume_contract_witness :
    Fiber.resume 0 scenB = .error .assertFail ∧
    ((lookupF 1 scenC.heap).map Fiber.m_state = some .RUNNING ∧
     scenC.t_fiber = some 1 ∧
     ∀ b, Fiber.GetThis b scenC = (scenC, 1)) :=
  ⟨c4_resume_contract.1 scenB 0 mainF0 rfl (by decide),
   c4_resume_contract.2 scenB scenC 1 0 rfl⟩

/-- C5: `yield()` requires the fiber's state to be RUNNING or TERM —
anything else dies on the assertion; on success a RUNNING fiber becomes
READY and a TERM fiber stays TERM. -/
theorem c5_yield_contract :
    (∀ (s : ThreadState) (p : Nat) (f : Fiber),
      lookupF p s.heap = some f →
      f.m_state ≠ .RUNNING → f.m_state ≠ .TERM →
      Fiber.yield p s = .error .assertFail) ∧
    (∀ (s s' : ThreadState) (p t : Nat) (f : Fiber),
      lookupF p s.heap = some f → Fiber.yield p s = .ok (s', t) →
      (f.m_state = .RUNNING →
        (lookupF p s'.heap).map Fiber.m_state = some .READY) ∧
      (f.m_state = .TERM →
        (lookupF p s'.heap).map Fiber.m_state = some .TERM)) := by
  constructor
  · intro s p f hl h1 h2
    exact yield_assertFail hl (fun hor => hor.elim h1 h2)
  · intro s s' p t f hl h
    obtain ⟨g, hg, -, -, -, -, -, -, -, -, -, hstate, -⟩ := yield_ok_spec h
    rw [hl] at hg
    injection hg with hg1
    subst hg1
    constructor
    · intro hrun
      rw [hstate, hrun]
      rfl
    · intro hterm
      rw [hstate, hterm]
      rfl

/-- C5 (witness): yielding READY F1 (before any resume) is an assertion
failure; yielding RUNNING F1 makes it READY; yielding the TERM F1 after
its closure completed leaves it TERM. -/
theorem c5_yield_contract_witness :
    Fiber.yield 1 scenB = .error .assertFail ∧
    (lookupF 1 scenD.heap).map Fiber.m_state = some .READY ∧
    (lookupF 1 scenF.heap).map Fiber.m_state = some .TERM :=
  ⟨c5_yield_contract.1 scenB 1 workF1 rfl (by decide) (by decide),
   (c5_yield_contract.2 scenC scenD 1 0 ({ workF1 with m_state := .RUNNING })
     rfl rfl).1 rfl,
   (c5_yield_contract.2 scenE scenF 1 0
     ({ workF1 with m_state := .TERM, m_cb := none }) rfl rfl).2 rfl⟩

/-- ... after `reset(9)` on the TERM F1: same stack, new closure. -/
def c6sG : ThreadState :=
  match Fiber.reset 1 9 scenF with
  | .ok st => st
  | .error _ => initState

/-- ... after resuming the reset F1. -/
def c6sH : ThreadState :=
  match Fiber.resume 1 c6sG with
  | .ok r => r.1
  | .error _ => initState

/-- C6: `reset(new_entry)` dies on the assertion unless the fiber is
TERM and owns a real stack; when the precondition holds it makes the
fiber READY with the new closure installed, re-pointing the context at
the trampoline over the unchanged stack buffer and size, allocating
nothing; in the concrete chain the fiber that ran closure 7 to
completion is reset with closure 9, keeps stack address 0, and the
subsequent resume starts with closure 9 installed. -/
theorem c6_reset_contract :
    (∀ (s : ThreadState) (p cb : Nat) (f : Fiber),
      lookupF p s.heap = some f →
      ¬(f.m_stack ≠ none ∧ f.m_state = .TERM) →
      Fiber.reset p cb s = .error .assertFail) ∧
    (∀ (s s' : ThreadState) (p cb : Nat) (f : Fiber),
      lookupF p s.heap = some f → Fiber.reset p cb s = .ok s' →
      f.m_state = .TERM ∧ f.m_stack ≠ none ∧
      lookupF p s'.heap = some ({ f with m_state := .READY,
                                          m_cb := some cb,
                                          m_ctx := .entry f.m_stack f.m_stacksize }) ∧
      s'.next_addr = s.next_addr) ∧
    (Fiber.reset 1 9 scenF = .ok c6sG ∧
     (lookupF 1 scenF.heap).map Fiber.m_stack = some (some 0) ∧
     (lookupF 1 c6sG.heap).map Fiber.m_stack = some (some 0) ∧
     (lookupF 1 c6sG.heap).map Fiber.m_stacksize = some 128000 ∧
     (lookupF 1 c6sG.heap).map Fiber.m_state = some .READY ∧
     c6sG.next_addr = scenF.next_addr ∧
     Fiber.resume 1 c6sG = .ok (c6sH, 0) ∧
     Fiber.MainFuncAtClosureStart false c6sH = (c6sH, 1) ∧
     (lookupF 1 c6sH.heap).map Fiber.m_cb = some (some 9)) := by
  refine ⟨fun s p cb f hl hpre => reset_assertFail hl hpre, ?_,
    rfl, rfl, rfl, rfl, rfl, rfl, rfl, rfl, rfl⟩
  intro s s' p cb f hl h
  obtain ⟨g, hg, hstk, hterm, hlook, haddr, -⟩ := reset_ok_spec h
  rw [hl] at hg
  injection hg with hg1
  subst hg1
  exact ⟨hterm, hstk, hlook, haddr⟩

/-- C6 (witness): reset of the READY F1 is an assertion failure
(precondition violated); reset of the TERM F1 succeeds and the theorem
yields the unchanged-stack record. -/
theorem c6_reset_contract_witness :
    Fiber.reset 1 5 scenB = .error .assertFail ∧
    lookupF 1 c6sG.heap = some ({ workF1 with m_cb := some 9 }) :=
  ⟨c6_reset_contract.1 scenB 1 5 workF1 rfl (by decide),
   ((c6_reset_contract.2.1 scenF c6sG 1 9
      ({ workF1 with m_state := .TERM, m_cb := none, m_ctx := .saved })
      rfl rfl).2.2.1)⟩

/-- C7: every fiber built by the worker constructor starts READY and
owns a freshly allocated stack whose size is exactly the request, or
the 128000-byte default when the request is 0. -/
theorem c7_ctor_ready_and_stacksize :
    ∀ (s : ThreadState) (cb sz : Nat) (rs : Bool),
      (lookupF (Fiber.ctor cb sz rs s).2
        (Fiber.ctor cb sz rs s).1.heap).map Fiber.m_state = some .READY ∧
      (sz = 0 →
        (lookupF (Fiber.ctor cb sz rs s).2
          (Fiber.ctor cb sz rs s).1.heap).map Fiber.m_stacksize = some 128000) ∧
      (sz ≠ 0 →
        (lookupF (Fiber.ctor cb sz rs s).2
          (Fiber.ctor cb sz rs s).1.heap).map Fiber.m_stacksize = some sz) ∧
      (lookupF (Fiber.ctor cb sz rs s).2
        (Fiber.ctor cb sz rs s).1.heap).map Fiber.m_stack =
        some (some s.next_addr) := by
  intro s cb sz rs
  rw [ctor_spec]
  simp only [lookupF_cons_self, Option.map_some]
  refine ⟨rfl, ?_, ?_, rfl⟩
  · intro h
    simp [h]
  · intro h
    simp [h]

/-- C7 (witness): the constructor theorem applied with a zero and a
nonzero stack request. -/
theorem c7_ctor_ready_and_stacksize_witness :
    (lookupF (Fiber.ctor 7 0 false scenA).2
      (Fiber.ctor 7 0 false scenA).1.heap).map Fiber.m_stacksize =
        some 128000 ∧
    (lookupF (Fiber.ctor 7 4096 true scenA).2
      (Fiber.ctor 7 4096 true scenA).1.heap).map Fiber.m_stacksize =
        some 4096 :=
  ⟨(c7_ctor_ready_and_stacksize scenA 7 0 false).2.1 rfl,
   (c7_ctor_ready_and_stacksize scenA 7 4096 true).2.2.1 (by decide)⟩

/-- C8: along every run of the interface, the identities assigned to
constructed fibers (thread or worker) are strictly increasing in
construction order — they are drawn from the single monotonically
incremented counter `s_fiber_id` — hence pairwise distinct; and no
interface step ever changes the identity of an existing fiber. -/
theorem c8_identity_unique_increasing :
    (∀ (ops : List Op) (s : ThreadState),
      List.Pairwise (fun a b => a < b) (runIds s ops)) ∧
    (∀ (ops : List Op) (s : ThreadState), (runIds s ops).Nodup) ∧
    (∀ (s s1 : ThreadState) (op : Op) (c : Option Nat) (p : Nat) (f : Fiber),
      HeapWF s → stepOp s op = .ok (s1, c) → lookupF p s.heap = some f →
      HeapWF s1 ∧ (lookupF p s1.heap).map Fiber.m_id = some f.m_id) :=
  ⟨runIds_strictly_increasing,
   fun ops s =>
     List.Pairwise.imp (fun hlt => Nat.ne_of_lt hlt)
       (runIds_strictly_increasing ops s),
   fun _ _ _ _ _ _ hwf h hl =>
     ⟨stepOp_WF hwf h, stepOp_id_preserve hwf h hl⟩⟩

/-- C8 (witness): resuming F1 preserves the thread fiber's identity 0
(and heap well-formedness) in the concrete scenario. -/
theorem c8_identity_unique_increasing_witness :
    HeapWF scenC ∧ (lookupF 0 scenC.heap).map Fiber.m_id = some 0 :=
  c8_identity_unique_increasing.2.2 scenB scenC (.opResume 1) none 0 mainF0
    (by unfold HeapWF; decide) rfl rfl

/-- C9: constructing a worker fiber touches none of the thread-local
registry pointers, so on a thread whose registry was never initialized
(no prior `GetThis`) the new fiber is READY — `resume`'s asserted
precondition holds — and yet `resume` dereferences the null
`t_scheduler_fiber` or `t_thread_fiber` pointer (whichever its
`run_in_scheduler` flag selects) in the `swapcontext` call: the unstated
precondition is that the thread fiber already exists. -/
theorem c9_resume_on_untouched_registry_null_deref :
    ∀ (cb sz : Nat) (rs : Bool),
      (Fiber.ctor cb sz rs initState).1.t_fiber = none ∧
      (Fiber.ctor cb sz rs initState).1.t_thread_fiber = none ∧
      (Fiber.ctor cb sz rs initState).1.t_scheduler_fiber = none ∧
      (lookupF (Fiber.ctor cb sz rs initState).2
        (Fiber.ctor cb sz rs initState).1.heap).map Fiber.m_state =
        some .READY ∧
      Fiber.resume (Fiber.ctor cb sz rs initState).2
        (Fiber.ctor cb sz rs initState).1 = .error .nullDeref := by
  intro cb sz rs
  cases rs <;> exact ⟨rfl, rfl, rfl, rfl, rfl⟩

/-- If the asserted state precondition holds, `Fiber::yield` does not
fail the assertion (it either switches or dies on a null registry
pointer). -/
theorem yield_pre_not_assert {p : Nat} {s : ThreadState} {f : Fiber}
    (hl : lookupF p s.heap = some f)
    (hpre : f.m_state = .RUNNING ∨ f.m_state = .TERM) :
    Fiber.yield p s ≠ .error .assertFail := by
  unfold Fiber.yield
  simp only [hl]
  rw [if_pos hpre]
  cases hrs : f.m_runInScheduler with
  | true =>
    simp only [if_true]
    intro h
    split at h
    · injection h with he
      exact Err.noConfusion he
    · split at h
      · injection h with he
        exact Err.noConfusion he
      · exact Except.noConfusion h
  | false =>
    simp only [Bool.false_eq_true, if_false]
    intro h
    split at h
    · injection h with he
      exact Err.noConfusion he
    · split at h
      · injection h with he
        exact Err.noConfusion he
      · exact Except.noConfusion h

/-- C10 scenario parameterized by the thread fiber's (uninitialized in
the source) `m_runInScheduler` value `b`: registry touched, worker F1
constructed and resumed, so F1 — not the thread fiber — is current. -/
def c10scen (b : Bool) : ThreadState :=
  match Fiber.resume 1 ((Fiber.ctor 7 0 false (Fiber.GetThis b initState).1).1) with
  | .ok r => r.1
  | .error _ => initState

/-- C10: `yield()` never consults the current-fiber pointer — its
result is identical under any value of `t_fiber`, and it fails the
assertion exactly when the target fiber's own state is neither RUNNING
nor TERM; the thread fiber is created RUNNING by the first registry
access; and concretely, while F1 is the current fiber, calling
`yield()` on the (non-executing, still RUNNING) thread fiber passes the
precondition check and performs the switch, whatever its uninitialized
`m_runInScheduler` happens to be — the spec's `this == current`
requirement is an unenforced caller obligation. -/
theorem c10_yield_unchecked_current :
    (∀ (p : Nat) (s : ThreadState) (c : Option Nat),
      Fiber.yield p ({ s with t_fiber := c }) = Fiber.yield p s) ∧
    (∀ (s : ThreadState) (p : Nat) (f : Fiber), lookupF p s.heap = some f →
      (Fiber.yield p s = .error .assertFail ↔
        ¬(f.m_state = .RUNNING ∨ f.m_state = .TERM))) ∧
    (∀ (b : Bool) (s : ThreadState), s.t_fiber = none →
      (lookupF (Fiber.GetThis b s).2 (Fiber.GetThis b s).1.heap).map
        Fiber.m_state = some .RUNNING) ∧
    (∀ b : Bool,
      (c10scen b).t_fiber = some 1 ∧
      (lookupF 0 (c10scen b).heap).map Fiber.m_state = some .RUNNING ∧
      (Fiber.yield 0 (c10scen b)).map (fun r => r.2) = .ok 0) := by
  refine ⟨fun p s c => yield_ignores_current p s c, ?_, ?_, ?_⟩
  · intro s p f hl
    constructor
    · intro h hpre
      exact yield_pre_not_assert hl hpre h
    · intro hpre
      exact yield_assertFail hl hpre
  · intro b s h
    rw [GetThis_none_spec b h]
    simp [lookupF_cons_self]
  · intro b
    cases b <;> exact ⟨rfl, rfl, rfl⟩

/-- C10 (witness): the assertion-characterization applied to the
RUNNING, non-current thread fiber of the scenario, and the
thread-fiber-creation clause applied to the fresh thread. -/
theorem c10_yield_unchecked_current_witness :
    (¬(Fiber.yield 0 scenC = .error .assertFail) ∧
     (lookupF (Fiber.GetThis false initState).2
       (Fiber.GetThis false initState).1.heap).map Fiber.m_state =
         some .RUNNING) :=
  ⟨fun h => ((c10_yield_unchecked_current.2.1 scenC 0
      ({ mainF0 with m_ctx := .saved }) rfl).mp h) (Or.inl rfl),
   c10_yield_unchecked_current.2.2.1 false initState rfl⟩

end SylarFiber
